import Mathlib

/-!
Verification of the progressive-reveal flight animation in src/main.js.

The development shallowly embeds the animation core: the per-frame loop
animateFlights, the staggered admission callback addLater, and the feature
group built by the flightsSource loader. JavaScript numbers are modelled as
exact rationals; every quantity involved (millisecond timestamps, the reveal
rate 0.02, projected coordinates) is used only through comparisons and
arithmetic whose outcomes are far from floating-point sensitivity at the
inputs of interest.
-/

namespace FlightAnim

/-- A projected 2D map coordinate (EPSG:3857), as an exact pair of
rationals. -/
abbrev Coord := ℚ × ℚ

/-- Geometry of a feature as the animation code observes it. A LineString
carries its list of coordinate pairs. A Point carries its coordinate as an
Option, because animateFlights builds marker Points from coords[0] and
coords[coords.length - 1], which are undefined when the coordinate array
is empty; the library constructor throws on an undefined coordinate (see
newPoint), so a point none value arises only in the total model
featureStep, never in the running program. -/
inductive Geometry where
  | lineString (cs : List Coord)
  | point (c : Option Coord)

/-- The array returned by feature.getGeometry().getCoordinates(), as read
by animateFlights (line 150) and addLater (line 216). For a LineString it
is the list of coordinate pairs. A Point instead returns its flat [x, y]
number array: the program observes that array only through its length (2),
which addLater uses when it accumulates the start offset over the icon
features of a group; we model it as a two-entry list repeating the point
coordinate, which preserves that length. A Point built from a missing
coordinate cannot actually be constructed by the running program (the
constructor throws first, see newPoint); the value exists only in the
total model featureStep, and we give it an empty array. -/
def Geometry.getCoordinates : Geometry → List Coord
  | .lineString cs => cs
  | .point (some c) => [c, c]
  | .point none => []

/-- An OpenLayers Feature, restricted to the attributes the animation core
reads and writes: the geometry, the start attribute (none until addLater
sets it, and none forever on the markers animateFlights creates), and the
finished attribute. The name attribute and the static icon styles are
never read by the animation and are omitted. -/
structure Feature where
  geom : Geometry
  start : Option ℚ
  finished : Bool

/-- The global reveal rate of src/main.js line 138, in points per
millisecond; 0.02 is the exact rational 1/50 here. -/
def pointsPerMs : ℚ := 0.02

/-- One vectorContext.drawGeometry call issued by animateFlights: the
coordinate list of the drawn LineString and the total horizontal
translation that was applied to it before drawing. -/
structure DrawCmd where
  coords : List Coord
  dx : ℚ

/-- The effect of the loop body of animateFlights (src/main.js lines
146-203) on one feature: the feature with its possibly updated finished
attribute, the drawGeometry calls issued for it this frame, and the marker
features added to flightsSource for it this frame. -/
structure StepOut where
  feature : Feature
  draws : List DrawCmd
  added : List Feature

/-- The loop body of animateFlights for one feature, at frame time now,
view center x-coordinate cx and world width W. A feature that is finished
is skipped (line 148). A feature whose start attribute was never set
yields elapsedTime = NaN, and NaN >= 0 is false in JavaScript, so it is
skipped by the guard of line 152; the none case models this. Otherwise,
with elapsedTime >= 0: elapsedPoints = elapsedTime * pointsPerMs; finished
is set when elapsedPoints >= coords.length (lines 155-157); the drawn
prefix is coords.slice(0, min(elapsedPoints, coords.length)), where slice
truncates its fractional end argument toward zero, which for this
nonnegative value is the floor; two draws are issued, translated by
offset * worldWidth and then by one further worldWidth (lines 198-201);
and two marker features at coords[0] and coords[coords.length - 1] are
added to the source (lines 169-195), carrying no start attribute. On a
feature whose coordinate array is empty the real marker construction of
line 169 throws before either draw call and before the addFeatures call;
featureStep is the total collapse of that error path, adequate for every
feature with a nonempty coordinate array, and featureStepE below models
the throw exactly (they agree whenever the marker construction succeeds,
featureStepE_eq_ok). -/
def featureStep (now cx W : ℚ) (f : Feature) : StepOut :=
  if f.finished then ⟨f, [], []⟩
  else
    let coords := f.geom.getCoordinates
    match f.start with
    | none => ⟨f, [], []⟩
    | some s =>
      let elapsedTime := now - s
      if 0 ≤ elapsedTime then
        let elapsedPoints := elapsedTime * pointsPerMs
        let nowFinished := decide ((coords.length : ℚ) ≤ elapsedPoints)
        let maxIndex := min elapsedPoints ((coords.length : ℚ))
        let currentLine := coords.take (⌊maxIndex⌋).toNat
        let offset : ℤ := ⌊cx / W⌋
        let startIconFeature : Feature := ⟨.point coords.head?, none, false⟩
        let endIconFeature : Feature := ⟨.point coords.getLast?, none, false⟩
        ⟨⟨f.geom, f.start, nowFinished⟩,
         [⟨currentLine, (offset : ℚ) * W⟩, ⟨currentLine, (offset : ℚ) * W + W⟩],
         [startIconFeature, endIconFeature]⟩
      else ⟨f, [], []⟩

/-- The Point constructor of the mapping library as invoked at lines
169-176 of src/main.js: applied to a present coordinate it yields the
Point geometry; applied to undefined, which is the value of coords[0] and
of coords[coords.length - 1] on an empty array, it throws a TypeError
while measuring the length of the missing coordinate array, modelled as
the error case. -/
def newPoint : Option Coord → Except Unit Geometry
  | some c => .ok (.point (some c))
  | none => .error ()

/-- The loop body of animateFlights with the marker construction of lines
167-176 modelled exactly, including the library throw: on a feature whose
coordinate array is empty, the finished attribute has already been set
(line 156) when the Point constructor throws, and the invocation aborts
before any marker is added to the source (line 195) and before either
drawGeometry call (lines 198-201); the error value carries the feature as
mutated up to the throw. featureStep is the total collapse of this
function, and the two agree on every feature whose marker construction
succeeds (featureStepE_eq_ok). -/
def featureStepE (now cx W : ℚ) (f : Feature) : Except Feature StepOut :=
  if f.finished then .ok ⟨f, [], []⟩
  else
    let coords := f.geom.getCoordinates
    match f.start with
    | none => .ok ⟨f, [], []⟩
    | some s =>
      let elapsedTime := now - s
      if 0 ≤ elapsedTime then
        let elapsedPoints := elapsedTime * pointsPerMs
        let nowFinished := decide ((coords.length : ℚ) ≤ elapsedPoints)
        let maxIndex := min elapsedPoints ((coords.length : ℚ))
        let currentLine := coords.take (⌊maxIndex⌋).toNat
        let offset : ℤ := ⌊cx / W⌋
        match newPoint coords.head?, newPoint coords.getLast? with
        | .ok g1, .ok g2 =>
          .ok ⟨⟨f.geom, f.start, nowFinished⟩,
           [⟨currentLine, (offset : ℚ) * W⟩,
            ⟨currentLine, (offset : ℚ) * W + W⟩],
           [⟨g1, none, false⟩, ⟨g2, none, false⟩]⟩
        | _, _ => .error ⟨f.geom, f.start, nowFinished⟩
      else .ok ⟨f, [], []⟩

/-- The observable outcome of one animateFlights invocation: the contents
of flightsSource afterwards and the drawGeometry calls of the frame. -/
structure FrameOut where
  registry : List Feature
  draws : List DrawCmd

/-- One invocation of animateFlights (src/main.js lines 139-207). The loop
iterates over the snapshot of flightsSource taken at line 145, so marker
features added during the loop are not visited until the next frame; they
land after the existing features in the source, in order of addition. -/
def animateFlights (now cx W : ℚ) (fs : List Feature) : FrameOut :=
  let outs := fs.map (featureStep now cx W)
  ⟨outs.map (·.feature) ++ (outs.map (·.added)).flatten,
   (outs.map (·.draws)).flatten⟩

/-- Repeated frames acting on one feature; each tick supplies a frame
time, a view center x-coordinate and a world width. -/
def runFrames (f : Feature) : List (ℚ × ℚ × ℚ) → Feature
  | [] => f
  | (now, cx, W) :: ticks => runFrames (featureStep now cx W f).feature ticks

/-- The admission callback body of addLater (src/main.js lines 211-218):
every feature of the group receives the running start value as its start
attribute, and the running value then advances by
(coordinate array length - 1) / pointsPerMs. -/
def addLater (start : ℚ) : List Feature → List Feature
  | [] => []
  | f :: rest =>
    { f with start := some start } ::
      addLater (start + (((f.geom.getCoordinates.length : ℚ) - 1) / pointsPerMs)) rest

/-- The feature group the flightsSource loader builds for one flight
(src/main.js lines 74-115): for each geometry of the possibly split arc,
a start icon Point at the first coordinate of the line, an end icon Point
at its last coordinate, and the LineString itself, in that order, all with
finished false and no start attribute yet. -/
def mkGroup (geoms : List (List Coord)) : List Feature :=
  (geoms.map (fun cs =>
    [⟨.point cs.head?, none, false⟩, ⟨.point cs.getLast?, none, false⟩,
     ⟨.lineString cs, none, false⟩])).flatten

/-- Whether animateFlights reaches the drawing branch for a feature this
frame: not finished, start attribute present, and nonnegative elapsed
time. -/
def isDrawn (now : ℚ) (f : Feature) : Bool :=
  !f.finished &&
    (match f.start with
     | some s => decide (0 ≤ now - s)
     | none => false)

lemma pointsPerMs_eq : pointsPerMs = 1 / 50 := by
  norm_num [pointsPerMs]

lemma featureStep_of_finished (now cx W : ℚ) (f : Feature)
    (hf : f.finished = true) : featureStep now cx W f = ⟨f, [], []⟩ := by
  simp [featureStep, hf]

lemma featureStep_of_start_none (now cx W : ℚ) (f : Feature)
    (hs : f.start = none) : featureStep now cx W f = ⟨f, [], []⟩ := by
  unfold featureStep
  rcases hb : f.finished
  · simp [hs]
  · simp

lemma featureStep_of_neg (now cx W s : ℚ) (f : Feature)
    (hs : f.start = some s) (hlt : now < s) :
    featureStep now cx W f = ⟨f, [], []⟩ := by
  unfold featureStep
  rcases hb : f.finished
  · simp only [Bool.false_eq_true, if_false, hs]
    rw [if_neg (by linarith)]
  · simp

lemma featureStep_drawn (now cx W s : ℚ) (f : Feature)
    (hf : f.finished = false) (hs : f.start = some s) (h0 : 0 ≤ now - s) :
    featureStep now cx W f =
      ⟨⟨f.geom, f.start, decide ((f.geom.getCoordinates.length : ℚ) ≤ (now - s) * pointsPerMs)⟩,
       [⟨f.geom.getCoordinates.take
            (⌊min ((now - s) * pointsPerMs) ((f.geom.getCoordinates.length : ℚ))⌋).toNat,
          ((⌊cx / W⌋ : ℤ) : ℚ) * W⟩,
        ⟨f.geom.getCoordinates.take
            (⌊min ((now - s) * pointsPerMs) ((f.geom.getCoordinates.length : ℚ))⌋).toNat,
          ((⌊cx / W⌋ : ℤ) : ℚ) * W + W⟩],
       [⟨.point f.geom.getCoordinates.head?, none, false⟩,
        ⟨.point f.geom.getCoordinates.getLast?, none, false⟩]⟩ := by
  unfold featureStep
  rw [hf, hs]
  simp only [Bool.false_eq_true, if_false]
  rw [if_pos h0]

lemma floor_min_natCast (q : ℚ) (n : ℕ) :
    (⌊min q (n : ℚ)⌋).toNat = min (⌊q⌋).toNat n := by
  rcases le_total q (n : ℚ) with h | h
  · have h1 : ⌊q⌋ ≤ (n : ℤ) := (Int.floor_mono h).trans_eq (Int.floor_natCast n)
    rw [min_eq_left h]
    omega
  · have h1 : (n : ℤ) ≤ ⌊q⌋ := by
      rw [Int.le_floor]
      exact_mod_cast h
    rw [min_eq_right h, Int.floor_natCast]
    omega

/-- C1: the claim states that a 101-point path at reveal rate 0.02 is
reported finished exactly when elapsed >= 5000 ms; at elapsed = 5000 ms
(frame time 5000, start 0) the code leaves finished false, because the
finish test is elapsedPoints >= coords.length, reached only at
elapsed >= 101 / 0.02 = 5050. -/
theorem c1_counterexample :
    (featureStep 5000 0 1
        ⟨.lineString (List.replicate 101 ((0 : ℚ), (0 : ℚ))), some 0, false⟩).feature.finished
        = false
    ∧ (5000 : ℚ) - 0 ≥ 5000 := by
  refine ⟨?_, by norm_num⟩
  rw [featureStep_drawn 5000 0 1 0 _ rfl rfl (by norm_num)]
  simp only [Geometry.getCoordinates, List.length_replicate, decide_eq_false_iff_not]
  rw [pointsPerMs_eq]
  norm_num

/-- C1 (amended): for a 101-point path, featureStep reports finished
exactly when elapsed = now - startTime is at least 5050 ms, which is
101 / 0.02; in particular it is not finished at elapsed = 4999 ms. -/
theorem c1_finished_iff (now cx W s : ℚ) (f : Feature) (cs : List Coord)
    (hg : f.geom = .lineString cs) (hlen : cs.length = 101)
    (hs : f.start = some s) (hf : f.finished = false) :
    ((featureStep now cx W f).feature.finished = true ↔ 5050 ≤ now - s) := by
  rcases le_or_lt s now with h | h
  · rw [featureStep_drawn now cx W s f hf hs (by linarith)]
    simp only [hg, Geometry.getCoordinates, hlen, decide_eq_true_eq]
    rw [pointsPerMs_eq]
    constructor
    · intro h1
      push_cast at h1
      linarith
    · intro h1
      push_cast
      linarith
  · rw [featureStep_of_neg now cx W s f hs h]
    simp only [hf, Bool.false_eq_true, false_iff]
    intro h1
    linarith

/-- C1 witness: the 101-point path starting at 0 is finished at frame
time 5050 and not finished at frame time 4999. -/
theorem c1_witness :
    (featureStep 5050 0 1
        ⟨.lineString (List.replicate 101 ((0 : ℚ), (0 : ℚ))), some 0, false⟩).feature.finished
        = true
    ∧ (featureStep 4999 0 1
        ⟨.lineString (List.replicate 101 ((0 : ℚ), (0 : ℚ))), some 0, false⟩).feature.finished
        = false := by
  constructor
  · exact (c1_finished_iff 5050 0 1 0 _ _ rfl (by simp) rfl rfl).mpr (by norm_num)
  · have h := c1_finished_iff 4999 0 1 0
      ⟨.lineString (List.replicate 101 ((0 : ℚ), (0 : ℚ))), some 0, false⟩
      (List.replicate 101 ((0 : ℚ), (0 : ℚ))) rfl (by simp) rfl rfl
    have h2 : ¬ (5050 : ℚ) ≤ 4999 - 0 := by norm_num
    simpa using mt h.mp h2

/-- C6: a path whose finished attribute is true when the frame visits it
produces zero draw calls from the animation core, and is left unchanged. -/
theorem c6_no_draw_when_finished (now cx W : ℚ) (f : Feature)
    (hf : f.finished = true) :
    (featureStep now cx W f).draws = [] ∧ (featureStep now cx W f).feature = f := by
  rw [featureStep_of_finished now cx W f hf]
  exact ⟨rfl, rfl⟩

/-- C6 witness: a concrete finished path receives no draw call. -/
theorem c6_witness :
    (featureStep 0 0 1 ⟨.lineString [((0 : ℚ), (0 : ℚ))], none, true⟩).draws = [] :=
  (c6_no_draw_when_finished 0 0 1 _ rfl).1

/-- C7: the finished state is a one-way latch. First, if featureStep
reports a path finished at time T then it reports it finished at every
later time, whatever view parameters each frame uses. Second, a finished
path is left exactly as it is by any sequence of frame ticks, so no path
returns from finished to pending or revealing. -/
theorem c7_finished_latch (cx W cx2 W2 : ℚ) (f : Feature) :
    (∀ T T2 : ℚ, T ≤ T2 → (featureStep T cx W f).feature.finished = true →
        (featureStep T2 cx2 W2 f).feature.finished = true)
    ∧ (∀ ticks : List (ℚ × ℚ × ℚ), f.finished = true → runFrames f ticks = f) := by
  constructor
  · intro T T2 hT h1
    rcases hb : f.finished
    · rcases hs : f.start with _ | s
      · rw [featureStep_of_start_none T cx W f hs] at h1
        simp only [hb] at h1
        exact absurd h1 Bool.false_ne_true
      · rcases le_or_lt s T with hle | hlt
        · rw [featureStep_drawn T cx W s f hb hs (by linarith)] at h1
          simp only [decide_eq_true_eq] at h1
          rw [featureStep_drawn T2 cx2 W2 s f hb hs (by linarith)]
          simp only [decide_eq_true_eq]
          have hmul : (T - s) * pointsPerMs ≤ (T2 - s) * pointsPerMs := by
            apply mul_le_mul_of_nonneg_right (by linarith)
            rw [pointsPerMs_eq]
            norm_num
          linarith
        · rw [featureStep_of_neg T cx W s f hs hlt] at h1
          simp only [hb] at h1
          exact absurd h1 Bool.false_ne_true
    · rw [featureStep_of_finished T2 cx2 W2 f hb]
      exact hb
  · intro ticks hf
    induction ticks with
    | nil => rfl
    | cons t ts ih =>
      obtain ⟨now, cx3, W3⟩ := t
      show runFrames (featureStep now cx3 W3 f).feature ts = f
      rw [featureStep_of_finished now cx3 W3 f hf]
      exact ih

/-- C7 witness: a concrete two-point path finished at frame time 100
stays finished at frame time 200, and a concrete finished path is
unchanged by a further tick. -/
theorem c7_witness :
    (featureStep 200 2 3
        ⟨.lineString [((0 : ℚ), (0 : ℚ)), (1, 1)], some 0, false⟩).feature.finished = true
    ∧ runFrames ⟨.lineString [((0 : ℚ), (0 : ℚ))], none, true⟩ [(7, 0, 1)]
        = ⟨.lineString [((0 : ℚ), (0 : ℚ))], none, true⟩ := by
  constructor
  · apply (c7_finished_latch 5 1 2 3 _).1 100 200 (by norm_num)
    rw [featureStep_drawn 100 5 1 0 _ rfl rfl (by norm_num)]
    simp only [Geometry.getCoordinates, List.length_cons, List.length_nil,
      decide_eq_true_eq]
    rw [pointsPerMs_eq]
    norm_num
  · exact (c7_finished_latch 5 1 2 3 _).2 [(7, 0, 1)] rfl

/-- C8: the claim states that the renderer skips a path whenever its
visible point count is zero; at frame time 25 a two-point path that
started at time 0 has a zero-length visible prefix (floor(25 * 0.02) = 0),
yet the frame still issues two draw calls (of the empty prefix) and emits
its two marker features, because the only skip guard is elapsedTime >= 0. -/
theorem c8_counterexample :
    (featureStep 25 0 1
        ⟨.lineString [((0 : ℚ), (0 : ℚ)), (1, 1)], some 0, false⟩).draws.map
        (fun d => d.coords) = [[], []]
    ∧ (featureStep 25 0 1
        ⟨.lineString [((0 : ℚ), (0 : ℚ)), (1, 1)], some 0, false⟩).added.length = 2 := by
  rw [featureStep_drawn 25 0 1 0 _ rfl rfl (by norm_num)]
  refine ⟨?_, rfl⟩
  have hmin : min ((25 - 0) * pointsPerMs)
      (((Geometry.lineString [((0 : ℚ), (0 : ℚ)), (1, 1)]).getCoordinates.length : ℚ))
      = 1 / 2 := by
    simp only [Geometry.getCoordinates, List.length_cons, List.length_nil]
    rw [pointsPerMs_eq]
    norm_num
  simp only [hmin]
  norm_num

/-- C8 (amended): a path with now < startTime is skipped entirely (no
draw calls, no marker emission, feature unchanged); the skip guard is
exactly elapsedTime >= 0, so an unfinished path with now >= startTime
always receives two draw calls, even when its visible point count is
zero. -/
theorem c8_skip_guard (now cx W s : ℚ) (f : Feature) (hs : f.start = some s) :
    (now < s → featureStep now cx W f = ⟨f, [], []⟩)
    ∧ (f.finished = false → s ≤ now →
        (featureStep now cx W f).draws.length = 2) := by
  constructor
  · intro h
    exact featureStep_of_neg now cx W s f hs h
  · intro hf h
    rw [featureStep_drawn now cx W s f hf hs (by linarith)]
    rfl

/-- C8 witness: a concrete not-yet-started path is skipped, and a
concrete started path receives two draw calls. -/
theorem c8_witness :
    featureStep 0 0 1 ⟨.lineString [((0 : ℚ), (0 : ℚ)), (1, 1)], some 10, false⟩
        = ⟨⟨.lineString [((0 : ℚ), (0 : ℚ)), (1, 1)], some 10, false⟩, [], []⟩
    ∧ (featureStep 100 0 1
        ⟨.lineString [((0 : ℚ), (0 : ℚ)), (1, 1)], some 0, false⟩).draws.length = 2 :=
  ⟨(c8_skip_guard 0 0 1 10 _ rfl).1 (by norm_num),
   (c8_skip_guard 100 0 1 0 _ rfl).2 rfl (by norm_num)⟩

/-- C4: for a path with now >= startTime, the number of visible points is
min(floor(elapsed * pointsPerMs), len(coordinates)), the geometry of each
draw call of the frame is exactly the prefix of the coordinates of that
length, and the count is clamped within [0, len(coordinates)]. -/
theorem c4_visible_prefix (now cx W s : ℚ) (f : Feature) (cs : List Coord)
    (hg : f.geom = .lineString cs) (hs : f.start = some s)
    (hf : f.finished = false) (hnow : s ≤ now) :
    (featureStep now cx W f).draws.map (fun d => d.coords)
        = [cs.take (min (⌊(now - s) * pointsPerMs⌋).toNat cs.length),
           cs.take (min (⌊(now - s) * pointsPerMs⌋).toNat cs.length)]
    ∧ (cs.take (min (⌊(now - s) * pointsPerMs⌋).toNat cs.length)).length
        = min (⌊(now - s) * pointsPerMs⌋).toNat cs.length
    ∧ min (⌊(now - s) * pointsPerMs⌋).toNat cs.length ≤ cs.length := by
  rw [featureStep_drawn now cx W s f hf hs (by linarith)]
  refine ⟨?_, ?_, ?_⟩
  · simp only [hg, Geometry.getCoordinates, List.map_cons, List.map_nil,
      floor_min_natCast]
  · rw [List.length_take]
    omega
  · omega

/-- C4 witness: a three-point path at elapsed 100 ms shows exactly its
two-point prefix in both draw calls. -/
theorem c4_witness :
    (featureStep 100 0 4
        ⟨.lineString [((0 : ℚ), (0 : ℚ)), (1, 1), (2, 2)], some 0, false⟩).draws.map
        (fun d => d.coords)
      = [[((0 : ℚ), (0 : ℚ)), (1, 1)], [((0 : ℚ), (0 : ℚ)), (1, 1)]] := by
  have h := c4_visible_prefix 100 0 4 0
    ⟨.lineString [((0 : ℚ), (0 : ℚ)), (1, 1), (2, 2)], some 0, false⟩
    [((0 : ℚ), (0 : ℚ)), (1, 1), (2, 2)] rfl rfl rfl (by norm_num)
  rw [h.1]
  have hcnt : min (⌊((100 : ℚ) - 0) * pointsPerMs⌋).toNat
      ([((0 : ℚ), (0 : ℚ)), (1, 1), (2, 2)].length) = 2 := by
    rw [pointsPerMs_eq]
    norm_num
    rfl
  rw [hcnt]
  rfl

/-- C5: an unfinished path with nonnegative elapsed time receives exactly
two draw calls per frame, translated by k * worldWidth and
(k + 1) * worldWidth, where k = floor(viewCenterX / worldWidth). -/
theorem c5_world_wrap (now cx W s : ℚ) (f : Feature)
    (hf : f.finished = false) (hs : f.start = some s) (h0 : s ≤ now) :
    (featureStep now cx W f).draws.map (fun d => d.dx)
        = [((⌊cx / W⌋ : ℤ) : ℚ) * W, (((⌊cx / W⌋ : ℤ) : ℚ) + 1) * W]
    ∧ (featureStep now cx W f).draws.length = 2 := by
  rw [featureStep_drawn now cx W s f hf hs (by linarith)]
  constructor
  · have he : ((⌊cx / W⌋ : ℤ) : ℚ) * W + W = (((⌊cx / W⌋ : ℤ) : ℚ) + 1) * W := by
      ring
    rw [List.map_cons, List.map_cons, List.map_nil, he]
  · rfl

/-- C5 witness: with view center 250 and world width 100, the two draw
calls of a concrete path are translated by 200 and 300. -/
theorem c5_witness :
    (featureStep 100 250 100
        ⟨.lineString [((0 : ℚ), (0 : ℚ)), (1, 1)], some 0, false⟩).draws.map
        (fun d => d.dx) = [200, 300] := by
  rw [(c5_world_wrap 100 250 100 0 _ rfl rfl (by norm_num)).1]
  norm_num

lemma getLast?_cons_isSome (a : Coord) (t : List Coord) :
    ∃ x, (a :: t).getLast? = some x := by
  induction t generalizing a with
  | nil => exact ⟨a, rfl⟩
  | cons b t ih =>
    obtain ⟨x, hx⟩ := ih b
    exact ⟨x, by rw [List.getLast?_cons_cons]; exact hx⟩

lemma addLater_group_starts (t0 : ℚ) (a1 a2 : Coord) (t1 t2 : List Coord) :
    (addLater t0 (mkGroup [a1 :: t1, a2 :: t2])).map (fun f => f.start)
      = [some t0, some (t0 + 50), some (t0 + 100),
         some (t0 + 100 + (t1.length : ℚ) * 50),
         some (t0 + 150 + (t1.length : ℚ) * 50),
         some (t0 + 200 + (t1.length : ℚ) * 50)] := by
  obtain ⟨x1, hx1⟩ := getLast?_cons_isSome a1 t1
  obtain ⟨x2, hx2⟩ := getLast?_cons_isSome a2 t2
  simp only [mkGroup, List.map_cons, List.map_nil, List.flatten_cons,
    List.flatten_nil, List.cons_append, List.nil_append, List.head?_cons,
    hx1, hx2]
  simp only [addLater, Geometry.getCoordinates, List.length_cons,
    List.length_nil, List.map_cons, List.map_nil]
  rw [pointsPerMs_eq]
  push_cast
  norm_num
  refine ⟨by ring, by ring, by ring, by ring⟩

/-- C2: the claim states that for a group of two sub-paths with point
counts 51 and 31 admitted at reveal rate 0.02, the second sub-path starts
2500 ms after the first; in the code the group admitted by the loader also
interleaves two icon Point features before each sub-path, whose coordinate
arrays have length 2 and therefore contribute (2 - 1) / 0.02 = 50 ms each
to the accumulated offset, so with admission time 0 the first LineString
starts at 100 and the second at 2700: their distance is 2600 ms, not
2500. -/
theorem c2_counterexample :
    (addLater 0 (mkGroup [List.replicate 51 ((0 : ℚ), (0 : ℚ)),
        List.replicate 31 ((0 : ℚ), (0 : ℚ))])).map (fun f => f.start)
      = [some 0, some 50, some 100, some 2600, some 2650, some 2700]
    ∧ (2700 : ℚ) ≠ 100 + 2500 := by
  constructor
  · have e1 : List.replicate 51 ((0 : ℚ), (0 : ℚ))
        = ((0 : ℚ), (0 : ℚ)) :: List.replicate 50 ((0 : ℚ), (0 : ℚ)) := rfl
    have e2 : List.replicate 31 ((0 : ℚ), (0 : ℚ))
        = ((0 : ℚ), (0 : ℚ)) :: List.replicate 30 ((0 : ℚ), (0 : ℚ)) := rfl
    rw [e1, e2, addLater_group_starts]
    simp only [List.length_replicate]
    norm_num
  · norm_num

/-- C2 (amended): within an admitted group of two sub-paths, the start
times accumulate over all six features of the group: each icon Point
feature advances the offset by (2 - 1) / 0.02 = 50 ms and the first
LineString by (pointCount - 1) / 0.02 ms, so the first sub-path starts at
t0 + 100 and the second at t0 + 200 + (pointCount1 - 1) / 0.02; for point
counts 51 and 31 the distance between the sub-path start times is
2500 + 100 = 2600 ms. -/
theorem c2_start_accumulation (t0 : ℚ) (a1 a2 : Coord) (t1 t2 : List Coord) :
    (addLater t0 (mkGroup [a1 :: t1, a2 :: t2])).map (fun f => f.start)
      = [some t0, some (t0 + 50), some (t0 + 100),
         some (t0 + 100 + (t1.length : ℚ) * 50),
         some (t0 + 150 + (t1.length : ℚ) * 50),
         some (t0 + 200 + (t1.length : ℚ) * 50)] :=
  addLater_group_starts t0 a1 a2 t1 t2

lemma featureStep_added_length (now cx W : ℚ) (f : Feature) :
    (featureStep now cx W f).added.length
      = if isDrawn now f = true then 2 else 0 := by
  rcases hb : f.finished
  · rcases hs : f.start with _ | s
    · rw [featureStep_of_start_none now cx W f hs]
      simp [isDrawn, hb, hs]
    · by_cases h0 : now < s
      · rw [featureStep_of_neg now cx W s f hs h0]
        simp [isDrawn, hb, hs, show ¬ (0 : ℚ) ≤ now - s by linarith]
      · push_neg at h0
        rw [featureStep_drawn now cx W s f hb hs (by linarith)]
        simp [isDrawn, hb, hs, show (0 : ℚ) ≤ now - s by linarith]
  · rw [featureStep_of_finished now cx W f hb]
    simp [isDrawn, hb]

lemma animateFlights_registry_length (now cx W : ℚ) (fs : List Feature) :
    (animateFlights now cx W fs).registry.length
      = fs.length + 2 * (fs.countP (fun f => isDrawn now f)) := by
  induction fs with
  | nil => rfl
  | cons f rest ih =>
    have ha := featureStep_added_length now cx W f
    simp only [animateFlights, List.map_cons, List.flatten_cons,
      List.length_append, List.length_cons, List.length_map,
      List.countP_cons] at ih ⊢
    by_cases hd : isDrawn now f = true
    · rw [if_pos hd] at ha
      simp only [hd, if_pos]
      omega
    · rw [if_neg hd] at ha
      rw [if_neg hd]
      omega

/-- C3: the claim states that the per-frame marker entities are ephemeral
and the stored feature set is unchanged by the frame; in the code the
frame adds both markers of each drawn path to flightsSource, so after a
frame over a single two-point animating path the source holds 3 features,
not 1. -/
theorem c3_counterexample :
    ((animateFlights 0 0 1
        [⟨.lineString [((0 : ℚ), (0 : ℚ)), (1, 1)], some 0, false⟩]).registry).length = 3
    ∧ (3 : ℕ) ≠ 1 := by
  constructor
  · simp only [animateFlights, List.map_cons, List.map_nil]
    rw [featureStep_drawn 0 0 1 0 _ rfl rfl (by norm_num)]
    rfl
  · omega

/-- C3 (amended): the markers emitted each frame are persisted into the
vector source: after one animateFlights invocation the source holds the
original features plus exactly two new marker features per path that was
drawn this frame. -/
theorem c3_markers_persist (now cx W : ℚ) (fs : List Feature) :
    (animateFlights now cx W fs).registry.length
      = fs.length + 2 * (fs.countP (fun f => isDrawn now f)) :=
  animateFlights_registry_length now cx W fs

lemma featureStepE_eq_ok (now cx W : ℚ) (f : Feature) (a b : Coord)
    (h1 : f.geom.getCoordinates.head? = some a)
    (h2 : f.geom.getCoordinates.getLast? = some b) :
    featureStepE now cx W f = .ok (featureStep now cx W f) := by
  rcases hb : f.finished
  · rcases hs : f.start with _ | s
    · rw [featureStep_of_start_none now cx W f hs]
      unfold featureStepE
      simp [hb, hs]
    · by_cases h0 : now < s
      · rw [featureStep_of_neg now cx W s f hs h0]
        unfold featureStepE
        simp [hb, hs, show ¬ (0 : ℚ) ≤ now - s by linarith]
      · push_neg at h0
        rw [featureStep_drawn now cx W s f hb hs (by linarith)]
        unfold featureStepE
        simp [hb, hs, h1, h2, newPoint, show (0 : ℚ) ≤ now - s by linarith]
  · rw [featureStep_of_finished now cx W f hb]
    unfold featureStepE
    simp [hb]

/-- C9: for a path with an empty coordinate sequence at its first frame
with nonnegative elapsed time, the code sets the finished attribute true
(line 156) and then throws at the marker construction of line 169, where
coords[0] is undefined, so the frame crashes before any marker is added
to the source and before either draw call is issued; the error value
records the feature with finished already set. The claim is right about
the intent (treated as already finished, no crash, no draw) and the code
crashes instead. -/
theorem c9_empty_path_crash :
    featureStepE 0 0 1 ⟨.lineString [], some 0, false⟩
      = .error ⟨.lineString [], some 0, true⟩ := by
  unfold featureStepE
  norm_num [Geometry.getCoordinates, newPoint, pointsPerMs_eq]

/-- C10: every marker feature added to the source by a frame carries no
start attribute and a false finished attribute; any feature without a
start attribute is skipped whole by the loop (no draws, no markers,
feature unchanged), so under any sequence of frame ticks it stays
exactly as it is, never drawn and never finished; and each frame grows
the source by exactly two features per drawn path. -/
theorem c10_marker_accumulation (now cx W : ℚ) (fs : List Feature) :
    (∀ f : Feature, ∀ m ∈ (featureStep now cx W f).added,
        m.start = none ∧ m.finished = false)
    ∧ (∀ f : Feature, f.start = none → featureStep now cx W f = ⟨f, [], []⟩)
    ∧ (∀ (f : Feature) (ticks : List (ℚ × ℚ × ℚ)), f.start = none →
        runFrames f ticks = f)
    ∧ (animateFlights now cx W fs).registry.length
        = fs.length + 2 * (fs.countP (fun f => isDrawn now f)) := by
  refine ⟨?_, ?_, ?_, animateFlights_registry_length now cx W fs⟩
  · intro f m hm
    rcases hb : f.finished
    · rcases hs : f.start with _ | s
      · rw [featureStep_of_start_none now cx W f hs] at hm
        simp at hm
      · by_cases h0 : now < s
        · rw [featureStep_of_neg now cx W s f hs h0] at hm
          simp at hm
        · push_neg at h0
          rw [featureStep_drawn now cx W s f hb hs (by linarith)] at hm
          simp only [List.mem_cons, List.not_mem_nil, or_false] at hm
          rcases hm with h | h <;> subst h <;> exact ⟨rfl, rfl⟩
    · rw [featureStep_of_finished now cx W f hb] at hm
      simp at hm
  · intro f hs
    exact featureStep_of_start_none now cx W f hs
  · intro f ticks hs
    induction ticks with
    | nil => rfl
    | cons t ts ih =>
      obtain ⟨n2, c2, w2⟩ := t
      show runFrames (featureStep n2 c2 w2 f).feature ts = f
      rw [featureStep_of_start_none n2 c2 w2 f hs]
      exact ih

/-- C10 witness: a concrete marker feature without a start attribute is
left untouched by a frame, and the empty registry stays empty. -/
theorem c10_witness :
    featureStep 3 0 1 ⟨.point none, none, false⟩
        = ⟨⟨.point none, none, false⟩, [], []⟩
    ∧ (animateFlights 0 0 1 ([] : List Feature)).registry.length = 0 := by
  constructor
  · exact (c10_marker_accumulation 3 0 1 []).2.1 _ rfl
  · have h := (c10_marker_accumulation 0 0 1 []).2.2.2
    simpa using h

end FlightAnim
